import Mathlib

/-!
# gpup: file collection and the upload pipeline of `main.go`

A shallow embedding of `src/main.go`:

* `findFiles` walks every path argument with `filepath.Walk` and collects the
  regular files;
* `main` parses the command line, collects the files, authenticates and issues
  exactly one upload call.

`main.go` is the only source file.  The Go standard library (`os.Lstat`,
`path/filepath`) and the packages `oauth` and `photos` are the environment of
the program: the file system is a tree of `Entry` values, `filepath.Walk` and
`filepath.Join` are modelled after the standard library, and the results of the
`oauth` / `photos` calls are fields of a `World`.
-/

namespace Gpup

/-! ## Errors -/

/-- A Go `error` value.  `SkipDir` and `SkipAll` are the two sentinel values of
`path/filepath` that `Walk` treats specially; every other error is represented by
its message. -/
inductive GoError where
  | SkipDir
  | SkipAll
  | other (msg : String)
  deriving DecidableEq, Repr

/-- The method `Error()` of a Go error: its message. -/
def GoError.Error : GoError → String
  | .SkipDir => "skip this directory"
  | .SkipAll => "skip everything and stop the walk"
  | .other msg => msg

/-! ## File modes and the file tree -/

/-- The type bits of an `os.FileMode` (permission bits play no role in `main.go`).
`regular` stands for a mode with no type bit set. -/
inductive FileMode where
  | regular
  | ModeDir
  | ModeSymlink
  | ModeNamedPipe
  | ModeSocket
  | ModeDevice
  | ModeCharDevice
  | ModeIrregular
  deriving DecidableEq, Repr

/-- The method `FileMode.IsRegular`: no type bit is set. -/
def FileMode.IsRegular : FileMode → Bool
  | .regular => true
  | _ => false

/-- The kinds of special file other than a symbolic link. -/
inductive Special where
  | namedPipe
  | socket
  | device
  | charDevice
  | irregular
  deriving DecidableEq, Repr

/-- What `os.Lstat` and `readDirNames` find at a path.

* `lstatFail cause`: `os.Lstat` fails there (the path does not exist, or a
  component of it cannot be searched); `cause` is the message of the error.
* `regular`, `symlink`, `special k`: a file of that type; a symbolic link is
  reported as itself, since `Lstat` does not follow it.
* `dir readErr children`: a directory.  `readErr = some cause` means that reading
  its names fails with that message (the children are then never seen);
  otherwise `children` lists its entries by name, in the order `readDirNames`
  returns them (sorted by name). -/
inductive Entry where
  | lstatFail (cause : String)
  | regular
  | symlink
  | special (k : Special)
  | dir (readErr : Option String) (children : List (String × Entry))

/-- The `Mode()` of the `FileInfo` that `os.Lstat` returns for an entry (there is
none when `Lstat` fails). -/
def Entry.Mode : Entry → Option FileMode
  | .lstatFail _ => none
  | .regular => some .regular
  | .symlink => some .ModeSymlink
  | .special .namedPipe => some .ModeNamedPipe
  | .special .socket => some .ModeSocket
  | .special .device => some .ModeDevice
  | .special .charDevice => some .ModeCharDevice
  | .special .irregular => some .ModeIrregular
  | .dir _ _ => some .ModeDir

/-- The method `FileInfo.IsDir` of an entry. -/
def Entry.IsDir : Entry → Bool
  | .dir _ _ => true
  | _ => false

/-! ## `filepath.Clean` and `filepath.Join` (Unix) -/

/-- Split a path at every separator `/`. -/
def splitSep : List Char → List (List Char)
  | [] => [[]]
  | c :: cs =>
    match splitSep cs with
    | [] => [[c]]
    | e :: es => if c = '/' then [] :: e :: es else (c :: e) :: es

/-- One step of `filepath.Clean`: process the path element `elem`, with `out` the
elements kept so far (last one first).  Empty and `.` elements are dropped; `..`
removes the last kept element if there is one to backtrack over, is dropped at
the root, and is kept otherwise. -/
def cleanStep (rooted : Bool) (out : List (List Char)) (elem : List Char) : List (List Char) :=
  if elem = [] ∨ elem = ['.'] then out
  else if elem = ['.', '.'] then
    match out with
    | top :: rest => if top = ['.', '.'] then elem :: out else rest
    | [] => if rooted then [] else [elem]
  else elem :: out

/-- The function `filepath.Clean` on a Unix path: the shortest path equivalent
to `path` by lexical processing. -/
def Clean (path : String) : String :=
  if path.data = [] then "."
  else
    let rooted := path.data.head? = some '/'
    let kept := ((splitSep path.data).foldl (cleanStep rooted) []).reverse
    let body := String.intercalate "/" (kept.map String.mk)
    if rooted then "/" ++ body
    else if body.data = [] then "." else body

/-- The function `filepath.Join(path, name)`: empty elements are ignored, the
others are joined with a separator, and the result is cleaned. -/
def Join (path name : String) : String :=
  if path.data = [] then
    if name.data = [] then "" else Clean name
  else Clean (path ++ "/" ++ name)

/-! ## `filepath.Walk` -/

/-- A `filepath.WalkFunc` that works on a state of type `σ`: it receives the
path, the `FileInfo` (here its mode; `nil` when `Lstat` failed) and the error of
the walk, and returns the new state with its own error. -/
abbrev WalkFunc (σ : Type) := String → Option FileMode → Option GoError → σ → σ × Option GoError

mutual
/-- The function `walk` of `path/filepath`: a file that is not a directory is
given to `walkFn`; for a directory the names are read, `walkFn` is called with
the error of that reading, and the children are walked when both that error
and the error of `walkFn` are nil.  (For a path on which `Lstat` fails, `Walk`
and the loop of `walk` call `walkFn` with a nil `FileInfo` and the error; the
first equation is that call.) -/
def walk {σ : Type} (walkFn : WalkFunc σ) (path : String) : Entry → σ → σ × Option GoError
  | .lstatFail cause, s => walkFn path none (some (.other cause)) s
  | .dir readErr children, s =>
    let err := readErr.map GoError.other
    match walkFn path (some .ModeDir) err s with
    | (s1, err1) =>
      if err.isSome || err1.isSome then (s1, err1)
      else walkNames walkFn path children s1
  | .regular, s => walkFn path (some .regular) none s
  | .symlink, s => walkFn path (some .ModeSymlink) none s
  | .special k, s => walkFn path (Entry.special k).Mode none s
/-- The loop `for _, name := range names` of `walk`: each child is visited at
`Join(path, name)`; an error stops the loop, except `SkipDir` returned for a
directory or for a child on which `Lstat` failed. -/
def walkNames {σ : Type} (walkFn : WalkFunc σ) (path : String) :
    List (String × Entry) → σ → σ × Option GoError
  | [], s => (s, none)
  | (name, child) :: rest, s =>
    match walk walkFn (Join path name) child s with
    | (s1, none) => walkNames walkFn path rest s1
    | (s1, some err) =>
      if err = .SkipDir ∧ (child.IsDir ∨ child.Mode = none) then walkNames walkFn path rest s1
      else (s1, some err)
end

/-- The function `filepath.Walk`: `Lstat` the root, walk it, and turn the two
sentinel errors into success. -/
def Walk {σ : Type} (lstat : String → Entry) (root : String) (walkFn : WalkFunc σ) (s : σ) :
    σ × Option GoError :=
  match walk walkFn root (lstat root) s with
  | (s1, some err) => if err = .SkipDir ∨ err = .SkipAll then (s1, none) else (s1, some err)
  | (s1, none) => (s1, none)

/-! ## `findFiles` -/

/-- The function literal that `findFiles` passes to `filepath.Walk`; the captured
variable `files` is the state.  (A nil `info` comes only with an error.) -/
def findFilesFn : WalkFunc (List String) := fun child info err files =>
  match err with
  | some e => (files, some e)
  | none =>
    match info with
    | some mode => if mode.IsRegular then (files ++ [child], none) else (files, none)
    | none => (files, none)

/-- The call `fmt.Errorf("Error while finding files in %s: %s", parent, err)`. -/
def findFilesError (parent : String) (err : GoError) : GoError :=
  .other ("Error while finding files in " ++ parent ++ ": " ++ err.Error)

/-- The loop of `findFiles` over the path arguments, `files` being the list
collected so far. -/
def findFilesLoop (lstat : String → Entry) : List String → List String → List String × Option GoError
  | [], files => (files, none)
  | parent :: rest, files =>
    match Walk lstat parent findFilesFn files with
    | (_, some err) => ([], some (findFilesError parent err))
    | (files1, none) => findFilesLoop lstat rest files1

/-- The function `findFiles(filePaths)`: the pair of its two results, the nil slice
being the empty list. -/
def findFiles (lstat : String → Entry) (filePaths : List String) : List String × Option GoError :=
  findFilesLoop lstat filePaths []

/-! ## `main` -/

/-- The package variable `opts`, as `parser.Parse()` leaves it. -/
structure Opts where
  NewAlbum : String
  OAuthMethod : String
  ClientID : String
  ClientSecret : String

/-- Everything outside `main.go` that a run of `main` depends on.

* `Parse` is the result `(args, err)` of `parser.Parse()` and `opts` the options
  it stored;
* `lstat` is the file system;
* `NewClient`, `New`, `CreateAlbum` and `AddToLibrary` are the results of
  `oauth.NewClient`, `photos.New`, `service.CreateAlbum` and
  `service.AddToLibrary` (packages `oauth` and `photos`); each call returns to
  `main`.  `Album` is the type of the first result of `CreateAlbum`, which `main`
  discards. -/
structure World (Client Service Album : Type) where
  Parse : List String × Option GoError
  opts : Opts
  lstat : String → Entry
  NewClient : String → String → String → Except GoError Client
  New : Client → Except GoError Service
  CreateAlbum : Service → String → List String → Album × Option GoError
  AddToLibrary : Service → List String → Option GoError

/-- What a run of `main` does that is visible from outside, in order. -/
inductive Event where
  | WriteHelp
  | Fatal (msg : String)
  | LogPrintf (msg : String)
  | Printf (line : String)
  | NewClient (method clientID clientSecret : String)
  | New
  | CreateAlbum (title : String) (files : List String)
  | AddToLibrary (files : List String)
  deriving DecidableEq, Repr

/-- A finished run of `main`: what it did, and the exit code of the process. -/
structure Run where
  events : List Event
  exitCode : Nat
  deriving DecidableEq, Repr

/-- The calls `log.Fatal(err)` and `log.Fatalf(...)`: print the message, then
`os.Exit(1)`. -/
def fatal (before : List Event) (msg : String) : Run :=
  ⟨before ++ [.Fatal msg], 1⟩

/-- The verb `%3d`: the decimal number, padded with spaces on the left to width 3. -/
def fmt3d (n : Nat) : String :=
  String.mk (List.replicate (3 - (Nat.repr n).length) ' ') ++ Nat.repr n

/-- The lines printed by `for i, file := range files { fmt.Printf("%3d: %s\n", i+1, file) }`,
`i` being the index of the first file of the list. -/
def printFiles : Nat → List String → List Event
  | _, [] => []
  | i, file :: rest => .Printf (fmt3d (i + 1) ++ ": " ++ file ++ "\n") :: printFiles (i + 1) rest

/-- The function `main`. -/
def main {Client Service Album : Type} (w : World Client Service Album) : Run :=
  match w.Parse with
  | (_, some err) => fatal [] err.Error
  | (args, none) =>
    if args.length = 0 then ⟨[.WriteHelp], 1⟩
    else
      match findFiles w.lstat args with
      | (_, some err) => fatal [] err.Error
      | (files, none) =>
        if files.length = 0 then fatal [] ("File not found in " ++ ", ".intercalate args)
        else
          let listed : List Event :=
            .LogPrintf ("The following " ++ Nat.repr files.length ++ " files will be uploaded:")
              :: printFiles 0 files
          let authed := listed ++ [.NewClient w.opts.OAuthMethod w.opts.ClientID w.opts.ClientSecret]
          match w.NewClient w.opts.OAuthMethod w.opts.ClientID w.opts.ClientSecret with
          | .error err => fatal authed err.Error
          | .ok client =>
            match w.New client with
            | .error err => fatal (authed ++ [.New]) err.Error
            | .ok service =>
              if w.opts.NewAlbum ≠ "" then
                match w.CreateAlbum service w.opts.NewAlbum files with
                | (_, some err) =>
                  fatal (authed ++ [.New, .CreateAlbum w.opts.NewAlbum files]) err.Error
                | (_, none) => ⟨authed ++ [.New, .CreateAlbum w.opts.NewAlbum files], 0⟩
              else
                match w.AddToLibrary service files with
                | some err => fatal (authed ++ [.New, .AddToLibrary files]) err.Error
                | none => ⟨authed ++ [.New, .AddToLibrary files], 0⟩

/-! ## The Photos client -/

/-- The remote Photos service: the answer to an album creation (the album
identifier), to the upload of the bytes of a file (an upload token), and to a
batch commit of upload tokens into an album or the library (one status per
item, `true` for success), each of which may fail as a whole. -/
structure Remote where
  createAlbum : String → Except GoError String
  upload : String → Except GoError String
  batchCreate : Option String → List String → Except GoError (List Bool)

/-- One entry of the result set of a batch commit. -/
structure ItemResult where
  token : String
  success : Bool
  deriving DecidableEq, Repr

/-- Modelled from the spec: the operation "Upload bytes(file)" of the Photos
client (package `photos`, not among the sources), done for every file of the
file list before the batch commit is issued: one upload token per file, in
order; a failing upload is surfaced as it is. -/
def uploadFiles (r : Remote) : List String → Except GoError (List String)
  | [] => .ok []
  | file :: rest =>
    match r.upload file with
    | .error err => .error err
    | .ok token =>
      match uploadFiles r rest with
      | .error err => .error err
      | .ok tokens => .ok (token :: tokens)

/-- Modelled from the spec: the method `CreateAlbum(ctx, title, files)` of the
Photos client (package `photos`, not among the sources): create the album,
upload every file, then commit the upload tokens as items of the album.  A
failure of the album creation, of an upload or of the batch call as a whole is
returned as the error; per-item failures inside the batch are returned as the
list of results, one per item, with a nil error. -/
def PhotosCreateAlbum (r : Remote) (title : String) (files : List String) :
    List ItemResult × Option GoError :=
  match r.createAlbum title with
  | .error err => ([], some err)
  | .ok albumID =>
    match uploadFiles r files with
    | .error err => ([], some err)
    | .ok tokens =>
      match r.batchCreate (some albumID) tokens with
      | .error err => ([], some err)
      | .ok statuses => (List.zipWith ItemResult.mk tokens statuses, none)

/-! ## Vocabulary of the properties -/

/-- The error with which an entry cannot be read, if any: `Lstat` fails on it, or
it is a directory whose names cannot be read. -/
def Entry.failure : Entry → Option String
  | .lstatFail cause => some cause
  | .dir (some cause) _ => some cause
  | _ => none

mutual
/-- Every entry at or beneath this one can be read. -/
def Entry.readable : Entry → Bool
  | .lstatFail _ => false
  | .dir (some _) _ => false
  | .dir none children => readableAll children
  | _ => true
/-- Every entry at or beneath one of these children can be read. -/
def readableAll : List (String × Entry) → Bool
  | [] => true
  | (_, child) :: rest => child.readable && readableAll rest
end

/-- `Beneath root e path e'`: in the tree `e` found at `root`, the entry `e'` is
found at `path`: it is either `e` itself at `root`, or it is reached through
directories that can be read, the path of a child being
`filepath.Join(directory, name)`. -/
inductive Beneath : String → Entry → String → Entry → Prop where
  | here (root : String) (e : Entry) : Beneath root e root e
  | child (root : String) (children : List (String × Entry)) (name : String) (c : Entry)
      (path : String) (e : Entry) :
      (name, c) ∈ children → Beneath (Join root name) c path e →
      Beneath root (.dir none children) path e

mutual
/-- The number of regular files at or beneath an entry. -/
def Entry.regularCount : Entry → Nat
  | .lstatFail _ => 0
  | .regular => 1
  | .symlink => 0
  | .special _ => 0
  | .dir (some _) _ => 0
  | .dir none children => regularCountAll children
/-- The number of regular files at or beneath the children of a directory. -/
def regularCountAll : List (String × Entry) → Nat
  | [] => 0
  | (_, child) :: rest => child.regularCount + regularCountAll rest
end

/-- The entry is a regular file. -/
def Entry.isRegular : Entry → Bool
  | .regular => true
  | _ => false

/-- The number of regular files directly in a directory with these children. -/
def directRegular : List (String × Entry) → Nat
  | [] => 0
  | (_, child) :: rest => (if child.isRegular then 1 else 0) + directRegular rest

/-- The number of regular files held by the subdirectories among the children of
a directory. -/
def subdirRegular : List (String × Entry) → Nat
  | [] => 0
  | (_, child) :: rest => (if child.IsDir then child.regularCount else 0) + subdirRegular rest

mutual
/-- The paths of the regular files at or beneath an entry, in the order of the
walk. -/
def regularPaths (path : String) : Entry → List String
  | .regular => [path]
  | .dir none children => regularPathsAll path children
  | _ => []
/-- The paths of the regular files at or beneath the children of the directory
at `path`. -/
def regularPathsAll (path : String) : List (String × Entry) → List String
  | [] => []
  | (name, child) :: rest => regularPaths (Join path name) child ++ regularPathsAll path rest
end

/-- The run asks for authentication. -/
def Event.isAuth : Event → Bool
  | .NewClient _ _ _ => true
  | _ => false

/-- The run calls the Photos service. -/
def Event.isPhotos : Event → Bool
  | .New => true
  | .CreateAlbum _ _ => true
  | .AddToLibrary _ => true
  | _ => false

/-- The run issues an upload call. -/
def Event.isUpload : Event → Bool
  | .CreateAlbum _ _ => true
  | .AddToLibrary _ => true
  | _ => false

/-! ## A sample file system -/

/-- A sample file system: a directory `photos` with two regular files below it
among links, special files and subdirectories; a regular file `./x.png`; a
symbolic link `link`; a socket `sock`; a directory `locked` whose names cannot be
read; a directory `trip` with an unreadable subdirectory; nothing else exists. -/
def demoFS : String → Entry := fun p =>
  if p = "photos" then
    .dir none [("2019", .dir none [("b.jpg", .regular), ("c.jpg", .regular), ("raw", .dir none [])]),
      ("a.jpg", .regular), ("fifo", .special .namedPipe), ("latest", .symlink)]
  else if p = "photos/a.jpg" then .regular
  else if p = "./x.png" then .regular
  else if p = "link" then .symlink
  else if p = "sock" then .special .socket
  else if p = "locked" then .dir (some "open locked: permission denied") []
  else if p = "trip" then
    .dir none [("1.jpg", .regular),
      ("private", .dir (some "open trip/private: permission denied") []), ("z.jpg", .regular)]
  else .lstatFail ("lstat " ++ p ++ ": no such file or directory")

/-- A sample world on the sample file system: the command line is parsed with
success into the arguments `args` and the album title `title`, authentication
gives `auth`, and every call of the Photos service succeeds. -/
def demoWorld (args : List String) (title : String) (auth : Except GoError Unit) :
    World Unit Unit Unit where
  Parse := (args, none)
  opts := ⟨title, "browser", "id", "secret"⟩
  lstat := demoFS
  NewClient := fun _ _ _ => auth
  New := fun _ => .ok ()
  CreateAlbum := fun _ _ _ => ((), none)
  AddToLibrary := fun _ _ => none

/-- Modelled from the spec: a world whose `service.CreateAlbum` is the operation
of the Photos client (package `photos`, not among the sources) described by the
spec, talking to the remote service `rem`; everything else is as in `w`. -/
def withPhotos {Client Service Album : Type} (w : World Client Service Album) (rem : Remote) :
    World Client Service (List ItemResult) where
  Parse := w.Parse
  opts := w.opts
  lstat := w.lstat
  NewClient := w.NewClient
  New := w.New
  CreateAlbum := fun _ title files => PhotosCreateAlbum rem title files
  AddToLibrary := w.AddToLibrary

/-- A sample remote service: albums are created, every file is uploaded, and the
batch commit reports a failure for the item of `failing` and success for every
other item. -/
def demoRemote (failing : String) : Remote where
  createAlbum := fun title => .ok ("album:" ++ title)
  upload := fun file => .ok ("token:" ++ file)
  batchCreate := fun _ tokens => .ok (tokens.map (fun t => decide (t ≠ "token:" ++ failing)))

/-- The regular files at or beneath the directory `photos` of the sample file
system, in the order of the walk. -/
def demoFiles : List String :=
  ["photos/2019/b.jpg", "photos/2019/c.jpg", "photos/a.jpg"]

/-! ## Lemmas on the walk -/

mutual
theorem walk_readable : ∀ (e : Entry) (path : String) (files : List String),
    e.readable = true → walk findFilesFn path e files = (files ++ regularPaths path e, none)
  | .lstatFail _, _, _, h => by simp [Entry.readable] at h
  | .regular, _, _, _ => by simp [walk, findFilesFn, regularPaths, FileMode.IsRegular]
  | .symlink, _, _, _ => by simp [walk, findFilesFn, regularPaths, FileMode.IsRegular]
  | .special k, _, _, _ => by
    cases k <;> simp [walk, findFilesFn, regularPaths, FileMode.IsRegular, Entry.Mode]
  | .dir (some _) _, _, _, h => by simp [Entry.readable] at h
  | .dir none children, path, files, h => by
    have hc : readableAll children = true := by simpa [Entry.readable] using h
    simp [walk, findFilesFn, regularPaths, FileMode.IsRegular,
      walkNames_readable children path files hc]
theorem walkNames_readable : ∀ (children : List (String × Entry)) (path : String)
    (files : List String), readableAll children = true →
    walkNames findFilesFn path children files = (files ++ regularPathsAll path children, none)
  | [], _, _, _ => by simp [walkNames, regularPathsAll]
  | (name, child) :: rest, path, files, h => by
    have h2 : child.readable = true ∧ readableAll rest = true := by
      simpa [readableAll] using h
    simp [walkNames, regularPathsAll, walk_readable child (Join path name) files h2.1,
      walkNames_readable rest path _ h2.2]
end

mutual
theorem walk_unreadable : ∀ (e : Entry) (path : String), e.readable = false →
    ∃ cause q e1, Beneath path e q e1 ∧ e1.failure = some cause ∧
      ∀ files, ∃ files1, walk findFilesFn path e files = (files1, some (.other cause))
  | .lstatFail cause, path, _ =>
    ⟨cause, path, .lstatFail cause, Beneath.here _ _, rfl,
      fun files => ⟨files, by simp [walk, findFilesFn]⟩⟩
  | .regular, _, h => by simp [Entry.readable] at h
  | .symlink, _, h => by simp [Entry.readable] at h
  | .special _, _, h => by simp [Entry.readable] at h
  | .dir (some cause) children, path, _ =>
    ⟨cause, path, .dir (some cause) children, Beneath.here _ _, rfl,
      fun files => ⟨files, by simp [walk, findFilesFn]⟩⟩
  | .dir none children, path, h => by
    have hc : readableAll children = false := by simpa [Entry.readable] using h
    obtain ⟨cause, name, c, q, e1, hmem, hb, hf, hw⟩ := walkNames_unreadable children path hc
    refine ⟨cause, q, e1, Beneath.child path children name c q e1 hmem hb, hf, fun files => ?_⟩
    obtain ⟨files1, hw1⟩ := hw files
    exact ⟨files1, by simp [walk, findFilesFn, FileMode.IsRegular, hw1]⟩
theorem walkNames_unreadable : ∀ (children : List (String × Entry)) (path : String),
    readableAll children = false →
    ∃ cause name c q e1, (name, c) ∈ children ∧ Beneath (Join path name) c q e1 ∧
      e1.failure = some cause ∧
      ∀ files, ∃ files1, walkNames findFilesFn path children files = (files1, some (.other cause))
  | [], _, h => by simp [readableAll] at h
  | (name, child) :: rest, path, h => by
    cases hr : child.readable with
    | true =>
      have h2 : readableAll rest = false := by simpa [readableAll, hr] using h
      obtain ⟨cause, name1, c, q, e1, hmem, hb, hf, hw⟩ := walkNames_unreadable rest path h2
      refine ⟨cause, name1, c, q, e1, List.mem_cons_of_mem _ hmem, hb, hf, fun files => ?_⟩
      obtain ⟨files1, hw1⟩ := hw (files ++ regularPaths (Join path name) child)
      exact ⟨files1, by simp [walkNames, walk_readable child (Join path name) files hr, hw1]⟩
    | false =>
      obtain ⟨cause, q, e1, hb, hf, hw⟩ := walk_unreadable child (Join path name) hr
      refine ⟨cause, name, child, q, e1, List.mem_cons_self _ _, hb, hf, fun files => ?_⟩
      obtain ⟨files1, hw1⟩ := hw files
      exact ⟨files1, by simp [walkNames, hw1]⟩
end

theorem Walk_readable (lstat : String → Entry) (root : String) (files : List String)
    (h : (lstat root).readable = true) :
    Walk lstat root findFilesFn files = (files ++ regularPaths root (lstat root), none) := by
  simp [Walk, walk_readable (lstat root) root files h]

theorem Walk_unreadable (lstat : String → Entry) (root : String)
    (h : (lstat root).readable = false) :
    ∃ cause q e1, Beneath root (lstat root) q e1 ∧ e1.failure = some cause ∧
      ∀ files, ∃ files1, Walk lstat root findFilesFn files = (files1, some (.other cause)) := by
  obtain ⟨cause, q, e1, hb, hf, hw⟩ := walk_unreadable (lstat root) root h
  refine ⟨cause, q, e1, hb, hf, fun files => ?_⟩
  obtain ⟨files1, hw1⟩ := hw files
  exact ⟨files1, by simp [Walk, hw1]⟩

theorem readable_eq_false_of_failure (e : Entry) (h : e.failure ≠ none) : e.readable = false := by
  cases e with
  | lstatFail cause => simp [Entry.readable]
  | regular => simp [Entry.failure] at h
  | symlink => simp [Entry.failure] at h
  | special k => simp [Entry.failure] at h
  | dir readErr children =>
    cases readErr with
    | none => simp [Entry.failure] at h
    | some cause => simp [Entry.readable]

/-! ## Lemmas on the loop of `findFiles` -/

theorem findFilesLoop_cons_readable (lstat : String → Entry) (r : String) (rest files : List String)
    (h : (lstat r).readable = true) :
    findFilesLoop lstat (r :: rest) files =
      findFilesLoop lstat rest (files ++ regularPaths r (lstat r)) := by
  simp [findFilesLoop, Walk_readable lstat r files h]

theorem findFilesLoop_cons_unreadable (lstat : String → Entry) (r : String)
    (h : (lstat r).readable = false) :
    ∃ cause q e1, Beneath r (lstat r) q e1 ∧ e1.failure = some cause ∧
      ∀ rest files, findFilesLoop lstat (r :: rest) files =
        ([], some (findFilesError r (.other cause))) := by
  obtain ⟨cause, q, e1, hb, hf, hw⟩ := Walk_unreadable lstat r h
  refine ⟨cause, q, e1, hb, hf, fun rest files => ?_⟩
  obtain ⟨files1, hw1⟩ := hw files
  simp [findFilesLoop, hw1]

theorem findFilesLoop_readable (lstat : String → Entry) :
    ∀ (roots files : List String), (∀ r ∈ roots, (lstat r).readable = true) →
      findFilesLoop lstat roots files =
        (files ++ roots.flatMap (fun r => regularPaths r (lstat r)), none)
  | [], files, _ => by simp [findFilesLoop]
  | r :: rest, files, h => by
    have hr : (lstat r).readable = true := h r (List.mem_cons_self _ _)
    have hrest : ∀ x ∈ rest, (lstat x).readable = true :=
      fun x hx => h x (List.mem_cons_of_mem _ hx)
    rw [findFilesLoop_cons_readable lstat r rest files hr,
      findFilesLoop_readable lstat rest _ hrest]
    simp

theorem findFilesLoop_unreadable (lstat : String → Entry) :
    ∀ (roots files : List String) (r : String), r ∈ roots → (lstat r).readable = false →
      (findFilesLoop lstat roots files).1 = [] ∧ (findFilesLoop lstat roots files).2 ≠ none
  | [], _, _, hr, _ => by simp at hr
  | x :: rest, files, r, hr, hbad => by
    cases hx : (lstat x).readable with
    | false =>
      obtain ⟨cause, _, _, _, _, hw⟩ := findFilesLoop_cons_unreadable lstat x hx
      simp [hw rest files]
    | true =>
      rw [findFilesLoop_cons_readable lstat x rest files hx]
      rcases List.mem_cons.1 hr with heq | hmem
      · subst heq
        rw [hx] at hbad
        cases hbad
      · exact findFilesLoop_unreadable lstat rest _ r hmem hbad

theorem findFilesLoop_ok (lstat : String → Entry) (roots files : List String)
    (h : (findFilesLoop lstat roots files).2 = none) : ∀ r ∈ roots, (lstat r).readable = true := by
  intro r hr
  cases hread : (lstat r).readable with
  | true => rfl
  | false => exact absurd h (findFilesLoop_unreadable lstat roots files r hr hread).2

/-! ## Lemmas on the paths and the count of the regular files -/

theorem mem_regularPathsAll_of_mem (path : String) (name : String) (c : Entry) (q : String) :
    ∀ (children : List (String × Entry)), (name, c) ∈ children →
      q ∈ regularPaths (Join path name) c → q ∈ regularPathsAll path children
  | [], h, _ => by simp at h
  | (name1, c1) :: rest, h, hq => by
    rcases List.mem_cons.1 h with heq | hmem
    · cases heq
      simp [regularPathsAll, hq]
    · simp [regularPathsAll, mem_regularPathsAll_of_mem path name c q rest hmem hq]

theorem mem_regularPaths_of_beneath {root : String} {e : Entry} {q : String} {e1 : Entry}
    (h : Beneath root e q e1) : e1 = .regular → q ∈ regularPaths root e := by
  induction h with
  | here root e =>
    intro he
    subst he
    simp [regularPaths]
  | child root children name c path e hmem _ ih =>
    intro he
    have := mem_regularPathsAll_of_mem root name c path children hmem (ih he)
    simpa [regularPaths] using this

mutual
theorem beneath_of_mem_regularPaths : ∀ (e : Entry) (path q : String),
    q ∈ regularPaths path e → Beneath path e q .regular
  | .lstatFail _, _, _, h => by simp [regularPaths] at h
  | .regular, path, q, h => by
    have : q = path := by simpa [regularPaths] using h
    subst this
    exact Beneath.here _ _
  | .symlink, _, _, h => by simp [regularPaths] at h
  | .special _, _, _, h => by simp [regularPaths] at h
  | .dir (some _) _, _, _, h => by simp [regularPaths] at h
  | .dir none children, path, q, h => by
    have hq : q ∈ regularPathsAll path children := by simpa [regularPaths] using h
    obtain ⟨name, c, hmem, hb⟩ := beneath_of_mem_regularPathsAll children path q hq
    exact Beneath.child path children name c q .regular hmem hb
theorem beneath_of_mem_regularPathsAll : ∀ (children : List (String × Entry)) (path q : String),
    q ∈ regularPathsAll path children →
    ∃ name c, (name, c) ∈ children ∧ Beneath (Join path name) c q .regular
  | [], _, _, h => by simp [regularPathsAll] at h
  | (name, child) :: rest, path, q, h => by
    have hq : q ∈ regularPaths (Join path name) child ∨ q ∈ regularPathsAll path rest := by
      simpa [regularPathsAll] using h
    rcases hq with hq | hq
    · exact ⟨name, child, List.mem_cons_self _ _,
        beneath_of_mem_regularPaths child (Join path name) q hq⟩
    · obtain ⟨name1, c, hmem, hb⟩ := beneath_of_mem_regularPathsAll rest path q hq
      exact ⟨name1, c, List.mem_cons_of_mem _ hmem, hb⟩
end

theorem mem_regularPaths_iff (e : Entry) (path q : String) :
    q ∈ regularPaths path e ↔ Beneath path e q .regular :=
  ⟨beneath_of_mem_regularPaths e path q, fun h => mem_regularPaths_of_beneath h rfl⟩

mutual
theorem length_regularPaths : ∀ (e : Entry) (path : String),
    (regularPaths path e).length = e.regularCount
  | .lstatFail _, _ => by simp [regularPaths, Entry.regularCount]
  | .regular, _ => by simp [regularPaths, Entry.regularCount]
  | .symlink, _ => by simp [regularPaths, Entry.regularCount]
  | .special _, _ => by simp [regularPaths, Entry.regularCount]
  | .dir (some _) _, _ => by simp [regularPaths, Entry.regularCount]
  | .dir none children, path => by
    simp [regularPaths, Entry.regularCount, length_regularPathsAll children path]
theorem length_regularPathsAll : ∀ (children : List (String × Entry)) (path : String),
    (regularPathsAll path children).length = regularCountAll children
  | [], _ => by simp [regularPathsAll, regularCountAll]
  | (name, child) :: rest, path => by
    simp [regularPathsAll, regularCountAll, length_regularPaths child (Join path name),
      length_regularPathsAll rest path]
end

theorem regularCount_split (e : Entry) :
    e.regularCount = (if e.isRegular then 1 else 0) + (if e.IsDir then e.regularCount else 0) := by
  cases e with
  | dir readErr children => simp [Entry.isRegular, Entry.IsDir]
  | lstatFail cause => simp [Entry.isRegular, Entry.IsDir, Entry.regularCount]
  | regular => simp [Entry.isRegular, Entry.IsDir, Entry.regularCount]
  | symlink => simp [Entry.isRegular, Entry.IsDir, Entry.regularCount]
  | special k => simp [Entry.isRegular, Entry.IsDir, Entry.regularCount]

theorem regularCountAll_split (children : List (String × Entry)) :
    regularCountAll children = directRegular children + subdirRegular children := by
  induction children with
  | nil => simp [regularCountAll, directRegular, subdirRegular]
  | cons head rest ih =>
    obtain ⟨name, child⟩ := head
    have h := regularCount_split child
    simp only [regularCountAll, directRegular, subdirRegular, ih]
    omega

theorem findFilesLoop_of_walk_error (lstat : String → Entry) (r : String) (rest files : List String)
    (files1 : List String) (cause : String)
    (h : walk findFilesFn r (lstat r) files = (files1, some (.other cause))) :
    findFilesLoop lstat (r :: rest) files = ([], some (findFilesError r (.other cause))) := by
  simp [findFilesLoop, Walk, h]

theorem findFilesLoop_first_failure (lstat : String → Entry) (r : String) (post : List String)
    (cause : String)
    (hw : ∀ files, ∃ files1, walk findFilesFn r (lstat r) files = (files1, some (.other cause))) :
    ∀ (pre files : List String), (∀ p ∈ pre, (lstat p).readable = true) →
      findFilesLoop lstat (pre ++ r :: post) files = ([], some (findFilesError r (.other cause)))
  | [], files, _ => by
    obtain ⟨files1, hw1⟩ := hw files
    simpa using findFilesLoop_of_walk_error lstat r post files files1 cause hw1
  | x :: pre, files, h => by
    have hx : (lstat x).readable = true := h x (List.mem_cons_self _ _)
    have hpre : ∀ p ∈ pre, (lstat p).readable = true :=
      fun p hp => h p (List.mem_cons_of_mem _ hp)
    rw [List.cons_append, findFilesLoop_cons_readable lstat x _ files hx]
    exact findFilesLoop_first_failure lstat r post cause hw pre _ hpre

/-! ## The file collector -/

/-- C1: when every entry at or beneath the roots can be read, `findFiles` returns a
nil error and exactly the regular files at or beneath the roots: a path is in the
list if and only if a regular file is found at it beneath some root (so no entry
of the list is a directory, a symbolic link or a special file), the length of
the list is the number of regular files beneath the roots, and for a single
root that is a directory with `N` regular files directly in it and
subdirectories holding `K` more, the length is `N + K`. -/
theorem findFiles_collects_regular_files (lstat : String → Entry) (roots : List String)
    (hread : ∀ r ∈ roots, (lstat r).readable = true) :
    (findFiles lstat roots).2 = none ∧
    (∀ q, q ∈ (findFiles lstat roots).1 ↔ ∃ r ∈ roots, Beneath r (lstat r) q .regular) ∧
    (findFiles lstat roots).1.length = (roots.map (fun r => (lstat r).regularCount)).sum ∧
    (∀ r children, roots = [r] → lstat r = .dir none children →
      (findFiles lstat roots).1.length = directRegular children + subdirRegular children) := by
  have hloop := findFilesLoop_readable lstat roots [] hread
  have hlen : (findFiles lstat roots).1.length
      = (roots.map (fun r => (lstat r).regularCount)).sum := by
    simp only [findFiles, hloop, List.nil_append, List.length_flatMap]
    congr 1
    apply List.map_congr_left
    intro r _
    exact length_regularPaths (lstat r) r
  refine ⟨by simp [findFiles, hloop], ?_, hlen, ?_⟩
  · intro q
    simp only [findFiles, hloop, List.nil_append, List.mem_flatMap, mem_regularPaths_iff]
  · intro r children hroots hdir
    rw [hlen, hroots]
    simp only [List.map_cons, List.map_nil, List.sum_cons, List.sum_nil, Nat.add_zero, hdir]
    rw [Entry.regularCount]
    exact regularCountAll_split children

/-- C1, on the sample file system: the directory `photos` has one regular file
directly in it and a subdirectory holding two more. -/
theorem findFiles_collects_regular_files_witness :
    (∀ r ∈ ["photos"], (demoFS r).readable = true) ∧
    ((findFiles demoFS ["photos"]).2 = none ∧
    (∀ q, q ∈ (findFiles demoFS ["photos"]).1 ↔
      ∃ r ∈ ["photos"], Beneath r (demoFS r) q .regular) ∧
    (findFiles demoFS ["photos"]).1.length
      = (["photos"].map (fun r => (demoFS r).regularCount)).sum ∧
    (∀ r children, ["photos"] = [r] → demoFS r = .dir none children →
      (findFiles demoFS ["photos"]).1.length
        = directRegular children + subdirRegular children)) :=
  ⟨by decide, findFiles_collects_regular_files demoFS ["photos"] (by decide)⟩

/-- C3: if the traversal of a root fails (`Lstat` fails on the root, or the root is
a directory whose names cannot be read, or some entry beneath it cannot be
read), `findFiles` returns a nil list and a non-nil error, whatever the other
roots are and whatever was collected before. -/
theorem findFiles_fails_when_a_root_fails (lstat : String → Entry) (roots : List String)
    (r : String) (hr : r ∈ roots)
    (hfail : (lstat r).failure ≠ none ∨ (lstat r).readable = false) :
    (findFiles lstat roots).1 = [] ∧ (findFiles lstat roots).2 ≠ none :=
  findFilesLoop_unreadable lstat roots [] r hr
    (hfail.elim (readable_eq_false_of_failure (lstat r)) id)

/-- C3, on the sample file system: a root that does not exist, after a root that
was traversed with success. -/
theorem findFiles_fails_when_a_root_fails_witness :
    "missing" ∈ ["photos", "missing"] ∧ (demoFS "missing").failure ≠ none ∧
    (findFiles demoFS ["photos", "missing"]).1 = [] ∧
    (findFiles demoFS ["photos", "missing"]).2 ≠ none :=
  ⟨by decide, by decide,
    findFiles_fails_when_a_root_fails demoFS ["photos", "missing"] "missing" (by decide)
      (Or.inl (by decide))⟩

/-- C8: a root that is a regular file is returned as the one entry of the list,
the path string being the argument itself; a root that is a symbolic link or a
special file gives the empty list with a nil error. -/
theorem findFiles_single_root (lstat : String → Entry) (p : String) :
    (lstat p = .regular → findFiles lstat [p] = ([p], none)) ∧
    (lstat p = .symlink → findFiles lstat [p] = ([], none)) ∧
    (∀ k, lstat p = .special k → findFiles lstat [p] = ([], none)) := by
  refine ⟨fun h => ?_, fun h => ?_, fun k h => ?_⟩
  · simp [findFiles, findFilesLoop, Walk, h, walk, findFilesFn, FileMode.IsRegular]
  · simp [findFiles, findFilesLoop, Walk, h, walk, findFilesFn, FileMode.IsRegular]
  · cases k <;>
      simp [findFiles, findFilesLoop, Walk, h, walk, findFilesFn, FileMode.IsRegular, Entry.Mode]

/-- C8, on the sample file system: the path `./x.png` is returned as it is, not
cleaned; the link and the socket are skipped. -/
theorem findFiles_single_root_witness :
    findFiles demoFS ["./x.png"] = (["./x.png"], none) ∧
    findFiles demoFS ["link"] = ([], none) ∧
    findFiles demoFS ["sock"] = ([], none) :=
  ⟨(findFiles_single_root demoFS "./x.png").1 (by simp [demoFS]),
    (findFiles_single_root demoFS "link").2.1 (by simp [demoFS]),
    (findFiles_single_root demoFS "sock").2.2 .socket (by simp [demoFS])⟩

/-- C9: if `findFiles` succeeds on `a` and on `b`, it succeeds on `a ++ b` and
returns the files of `a` followed by the files of `b`, nothing being removed: the
length of the result is the sum of the two lengths. -/
theorem findFiles_append (lstat : String → Entry) (a b : List String)
    (ha : (findFiles lstat a).2 = none) (hb : (findFiles lstat b).2 = none) :
    findFiles lstat (a ++ b) = ((findFiles lstat a).1 ++ (findFiles lstat b).1, none) ∧
    (findFiles lstat (a ++ b)).1.length
      = (findFiles lstat a).1.length + (findFiles lstat b).1.length := by
  have hra := findFilesLoop_ok lstat a [] ha
  have hrb := findFilesLoop_ok lstat b [] hb
  have hrab : ∀ r ∈ a ++ b, (lstat r).readable = true := by
    intro r hr
    rcases List.mem_append.1 hr with h | h
    · exact hra r h
    · exact hrb r h
  have h1 : findFiles lstat (a ++ b)
      = ((findFiles lstat a).1 ++ (findFiles lstat b).1, none) := by
    simp [findFiles, findFilesLoop_readable lstat a [] hra, findFilesLoop_readable lstat b [] hrb,
      findFilesLoop_readable lstat (a ++ b) [] hrab]
  exact ⟨h1, by rw [h1, List.length_append]⟩

/-- C9, on the sample file system: the file `photos/a.jpg` is reachable from the
directory `photos` and is given twice more by name; it appears three times. -/
theorem findFiles_append_witness :
    (findFiles demoFS ["photos"]).2 = none ∧
    (findFiles demoFS ["photos/a.jpg", "photos/a.jpg"]).2 = none ∧
    findFiles demoFS (["photos"] ++ ["photos/a.jpg", "photos/a.jpg"])
      = ((findFiles demoFS ["photos"]).1 ++ (findFiles demoFS ["photos/a.jpg", "photos/a.jpg"]).1,
          none) ∧
    (findFiles demoFS (["photos"] ++ ["photos/a.jpg", "photos/a.jpg"])).1.length
      = (findFiles demoFS ["photos"]).1.length
        + (findFiles demoFS ["photos/a.jpg", "photos/a.jpg"]).1.length :=
  ⟨by decide, by decide,
    findFiles_append demoFS ["photos"] ["photos/a.jpg", "photos/a.jpg"] (by decide) (by decide)⟩

/-- C10: when the roots before `r` are traversed with success and an entry at or
beneath `r` cannot be read, `findFiles` returns the error
`Error while finding files in <r>: <cause>`, where `<cause>` is the error of an
entry at or beneath `r` and the root named is `r` itself; the result is the same
whatever roots follow `r` and whatever the file system holds anywhere but at the
roots up to `r`, so the later roots are not traversed. -/
theorem findFiles_stops_at_first_failing_root (lstat : String → Entry) (pre : List String)
    (r : String) (hpre : ∀ p ∈ pre, (lstat p).readable = true)
    (hr : (lstat r).readable = false) :
    ∃ cause q e1, Beneath r (lstat r) q e1 ∧ e1.failure = some cause ∧
      ∀ (lstat1 : String → Entry) (post : List String),
        (∀ p ∈ pre ++ [r], lstat1 p = lstat p) →
        findFiles lstat1 (pre ++ r :: post)
          = ([], some (.other ("Error while finding files in " ++ r ++ ": " ++ cause))) := by
  obtain ⟨cause, q, e1, hb, hf, hw⟩ := walk_unreadable (lstat r) r hr
  refine ⟨cause, q, e1, hb, hf, fun lstat1 post hagree => ?_⟩
  have hr1 : lstat1 r = lstat r := hagree r (by simp)
  have hpre1 : ∀ p ∈ pre, (lstat1 p).readable = true := by
    intro p hp
    rw [hagree p (by simp [hp])]
    exact hpre p hp
  have hw1 : ∀ files, ∃ files1,
      walk findFilesFn r (lstat1 r) files = (files1, some (.other cause)) := by
    rw [hr1]
    exact hw
  have := findFilesLoop_first_failure lstat1 r post cause hw1 pre [] hpre1
  simpa [findFiles, findFilesError, GoError.Error] using this

/-- C10, on the sample file system: `trip` has an unreadable subdirectory. -/
theorem findFiles_stops_at_first_failing_root_witness :
    (∀ p ∈ ["photos"], (demoFS p).readable = true) ∧ (demoFS "trip").readable = false ∧
    ∃ cause q e1, Beneath "trip" (demoFS "trip") q e1 ∧ e1.failure = some cause ∧
      ∀ (lstat1 : String → Entry) (post : List String),
        (∀ p ∈ ["photos"] ++ ["trip"], lstat1 p = demoFS p) →
        findFiles lstat1 (["photos"] ++ "trip" :: post)
          = ([], some (.other ("Error while finding files in " ++ "trip" ++ ": " ++ cause))) :=
  ⟨by decide, by decide,
    findFiles_stops_at_first_failing_root demoFS ["photos"] "trip" (by decide) (by decide)⟩

/-! ## The orchestrator -/

theorem printFiles_not_photos : ∀ (i : Nat) (files : List String),
    ∀ ev ∈ printFiles i files, ev.isAuth = false ∧ ev.isPhotos = false ∧ ev.isUpload = false
  | _, [], ev, h => by simp [printFiles] at h
  | i, file :: rest, ev, h => by
    rcases List.mem_cons.1 (by simpa [printFiles] using h) with heq | hmem
    · subst heq
      simp [Event.isAuth, Event.isPhotos, Event.isUpload]
    · exact printFiles_not_photos (i + 1) rest ev hmem

theorem filter_isUpload_printFiles (i : Nat) (files : List String) :
    (printFiles i files).filter Event.isUpload = [] := by
  rw [List.filter_eq_nil_iff]
  intro ev hev
  simp [(printFiles_not_photos i files ev hev).2.2]

/-- The run of `main` once the files are collected: the listing, then the
authentication and the upload. -/
theorem main_of_files {Client Service Album : Type} (w : World Client Service Album)
    (args files : List String) (hparse : w.Parse = (args, none)) (hargs : args ≠ [])
    (hfind : findFiles w.lstat args = (files, none)) (hfiles : files ≠ []) :
    main w =
      (let listed : List Event :=
        .LogPrintf ("The following " ++ Nat.repr files.length ++ " files will be uploaded:")
          :: printFiles 0 files
      let authed := listed ++ [.NewClient w.opts.OAuthMethod w.opts.ClientID w.opts.ClientSecret]
      match w.NewClient w.opts.OAuthMethod w.opts.ClientID w.opts.ClientSecret with
      | .error err => fatal authed err.Error
      | .ok client =>
        match w.New client with
        | .error err => fatal (authed ++ [.New]) err.Error
        | .ok service =>
          if w.opts.NewAlbum ≠ "" then
            match w.CreateAlbum service w.opts.NewAlbum files with
            | (_, some err) =>
              fatal (authed ++ [.New, .CreateAlbum w.opts.NewAlbum files]) err.Error
            | (_, none) => ⟨authed ++ [.New, .CreateAlbum w.opts.NewAlbum files], 0⟩
          else
            match w.AddToLibrary service files with
            | some err => fatal (authed ++ [.New, .AddToLibrary files]) err.Error
            | none => ⟨authed ++ [.New, .AddToLibrary files], 0⟩) := by
  have h1 : ¬ args.length = 0 := by simpa using hargs
  have h2 : ¬ files.length = 0 := by simpa using hfiles
  simp only [main, hparse, hfind, h1, h2, if_false]

theorem main_eq_of_no_files {Client Service Album : Type} (w : World Client Service Album)
    (args : List String) (hparse : w.Parse = (args, none)) (hargs : args ≠ [])
    (hfind : findFiles w.lstat args = ([], none)) :
    main w = ⟨[.Fatal ("File not found in " ++ ", ".intercalate args)], 1⟩ := by
  have h1 : ¬ args.length = 0 := by simpa using hargs
  simp [main, hparse, hfind, h1, fatal]

/-- C2: when the arguments are not empty and `findFiles` succeeds with an empty
list, `main` prints the fatal message `File not found in <arguments>` and exits
with code 1; there is no call of `oauth.NewClient` and no call of the Photos
service. -/
theorem main_no_files {Client Service Album : Type} (w : World Client Service Album)
    (args : List String) (hparse : w.Parse = (args, none)) (hargs : args ≠ [])
    (hfind : findFiles w.lstat args = ([], none)) :
    main w = ⟨[.Fatal ("File not found in " ++ ", ".intercalate args)], 1⟩ ∧
    (main w).exitCode ≠ 0 ∧
    ∀ ev ∈ (main w).events, ev.isAuth = false ∧ ev.isPhotos = false := by
  have hmain := main_eq_of_no_files w args hparse hargs hfind
  refine ⟨hmain, by simp [hmain], ?_⟩
  intro ev hev
  have : ev = .Fatal ("File not found in " ++ ", ".intercalate args) := by
    simpa [hmain] using hev
  subst this
  simp [Event.isAuth, Event.isPhotos]

/-- C2, on the sample file system: the arguments are a symbolic link and a socket. -/
theorem main_no_files_witness :
    (demoWorld ["link", "sock"] "" (.ok ())).Parse = (["link", "sock"], none) ∧
    findFiles (demoWorld ["link", "sock"] "" (.ok ())).lstat ["link", "sock"] = ([], none) ∧
    main (demoWorld ["link", "sock"] "" (.ok ()))
      = ⟨[.Fatal ("File not found in " ++ ", ".intercalate ["link", "sock"])], 1⟩ ∧
    (main (demoWorld ["link", "sock"] "" (.ok ()))).exitCode ≠ 0 ∧
    ∀ ev ∈ (main (demoWorld ["link", "sock"] "" (.ok ()))).events,
      ev.isAuth = false ∧ ev.isPhotos = false :=
  ⟨rfl, by decide,
    main_no_files (demoWorld ["link", "sock"] "" (.ok ())) ["link", "sock"] rfl (by decide)
      (by decide)⟩

/-- C4: when `oauth.NewClient` returns an error, `main` exits with code 1 and calls
neither `photos.New`, `service.CreateAlbum` nor `service.AddToLibrary`; when the
run reaches the authentication, it ends with the call of `oauth.NewClient`
followed by the fatal message of that error. -/
theorem main_auth_failure {Client Service Album : Type} (w : World Client Service Album)
    (err : GoError)
    (hauth : w.NewClient w.opts.OAuthMethod w.opts.ClientID w.opts.ClientSecret = .error err) :
    (main w).exitCode = 1 ∧
    (∀ ev ∈ (main w).events, ev.isPhotos = false) ∧
    (∀ args files, w.Parse = (args, none) → args ≠ [] →
      findFiles w.lstat args = (files, none) → files ≠ [] →
      ∃ before, (main w).events = before ++
        [.NewClient w.opts.OAuthMethod w.opts.ClientID w.opts.ClientSecret, .Fatal err.Error]) := by
  have hreach : ∀ args files, w.Parse = (args, none) → args ≠ [] →
      findFiles w.lstat args = (files, none) → files ≠ [] →
      main w = fatal ((.LogPrintf ("The following " ++ Nat.repr files.length
          ++ " files will be uploaded:") :: printFiles 0 files)
        ++ [.NewClient w.opts.OAuthMethod w.opts.ClientID w.opts.ClientSecret]) err.Error := by
    intro args files hparse hargs hfind hfiles
    rw [main_of_files w args files hparse hargs hfind hfiles]
    simp only [hauth]
  have h3 : ∀ args files, w.Parse = (args, none) → args ≠ [] →
      findFiles w.lstat args = (files, none) → files ≠ [] →
      ∃ before, (main w).events = before ++
        [.NewClient w.opts.OAuthMethod w.opts.ClientID w.opts.ClientSecret,
          .Fatal err.Error] := by
    intro a f hp ha hf hne
    rw [hreach a f hp ha hf hne]
    exact ⟨.LogPrintf ("The following " ++ Nat.repr f.length ++ " files will be uploaded:")
      :: printFiles 0 f, by simp [fatal]⟩
  have h12 : (main w).exitCode = 1 ∧ ∀ ev ∈ (main w).events, ev.isPhotos = false := by
    rcases hP : w.Parse with ⟨args, _ | perr⟩
    swap
    · refine ⟨by simp [main, hP, fatal], ?_⟩
      intro ev hev
      have : ev = .Fatal perr.Error := by simpa [main, hP, fatal] using hev
      subst this
      rfl
    by_cases hargs : args = []
    · refine ⟨by simp [main, hP, hargs], ?_⟩
      intro ev hev
      have : ev = .WriteHelp := by simpa [main, hP, hargs] using hev
      subst this
      rfl
    have h1 : ¬ args.length = 0 := by simpa using hargs
    rcases hF : findFiles w.lstat args with ⟨files, _ | ferr⟩
    swap
    · refine ⟨by simp [main, hP, hF, h1, fatal], ?_⟩
      intro ev hev
      have : ev = .Fatal ferr.Error := by simpa [main, hP, hF, h1, fatal] using hev
      subst this
      rfl
    by_cases hfiles : files = []
    · subst hfiles
      have h := main_eq_of_no_files w args hP hargs hF
      refine ⟨by simp [h], ?_⟩
      intro ev hev
      have : ev = .Fatal ("File not found in " ++ ", ".intercalate args) := by
        simpa [h] using hev
      subst this
      rfl
    have hm := hreach args files hP hargs hF hfiles
    refine ⟨by simp [hm, fatal], ?_⟩
    intro ev hev
    rw [hm] at hev
    simp only [fatal, List.mem_append, List.mem_cons, List.mem_singleton, List.not_mem_nil,
      or_false] at hev
    rcases hev with (h | h) | h
    · rcases h with h | h
      · subst h
        rfl
      · exact (printFiles_not_photos 0 files ev h).2.1
    · subst h
      rfl
    · subst h
      rfl
  exact ⟨h12.1, h12.2, h3⟩

/-- C4, on the sample file system: the authentication is cancelled. -/
theorem main_auth_failure_witness :
    (main (demoWorld ["photos"] "Trip" (.error (.other "cancelled")))).exitCode = 1 ∧
    (∀ ev ∈ (main (demoWorld ["photos"] "Trip" (.error (.other "cancelled")))).events,
      ev.isPhotos = false) ∧
    (∀ args files,
      (demoWorld ["photos"] "Trip" (.error (.other "cancelled"))).Parse = (args, none) →
      args ≠ [] →
      findFiles (demoWorld ["photos"] "Trip" (.error (.other "cancelled"))).lstat args
        = (files, none) →
      files ≠ [] →
      ∃ before, (main (demoWorld ["photos"] "Trip" (.error (.other "cancelled")))).events
        = before ++ [.NewClient "browser" "id" "secret", .Fatal "cancelled"]) :=
  main_auth_failure (demoWorld ["photos"] "Trip" (.error (.other "cancelled")))
    (.other "cancelled") rfl

/-- C5: in a run that reaches the upload stage with the collected list `F`, there
is exactly one upload call: `service.CreateAlbum(title, F)` when the title of
`--new-album` is not empty, `service.AddToLibrary(F)` when it is empty; the list
passed is the result of `findFiles`, unchanged. -/
theorem main_upload_call {Client Service Album : Type} (w : World Client Service Album)
    (args F : List String) (client : Client) (service : Service)
    (hparse : w.Parse = (args, none)) (hargs : args ≠ [])
    (hfind : findFiles w.lstat args = (F, none)) (hF : F ≠ [])
    (hauth : w.NewClient w.opts.OAuthMethod w.opts.ClientID w.opts.ClientSecret = .ok client)
    (hnew : w.New client = .ok service) :
    (w.opts.NewAlbum ≠ "" →
      (main w).events.filter Event.isUpload = [.CreateAlbum w.opts.NewAlbum F]) ∧
    (w.opts.NewAlbum = "" →
      (main w).events.filter Event.isUpload = [.AddToLibrary F]) := by
  have hm := main_of_files w args F hparse hargs hfind hF
  simp only [hauth, hnew] at hm
  constructor
  · intro htitle
    rw [hm]
    simp only [htitle, ne_eq, not_false_eq_true, if_true]
    rcases w.CreateAlbum service w.opts.NewAlbum F with ⟨album, _ | cerr⟩ <;>
      simp [fatal, List.filter_cons, filter_isUpload_printFiles, Event.isUpload]
  · intro htitle
    rw [hm]
    simp only [htitle, ne_eq, not_true_eq_false, if_false]
    rcases w.AddToLibrary service F with _ | aerr <;>
      simp [fatal, List.filter_cons, filter_isUpload_printFiles, Event.isUpload]

/-- C5, on the sample file system: the directory `photos` with the album title
`Trip`, and with no album title. -/
theorem main_upload_call_witness :
    (main (demoWorld ["photos"] "Trip" (.ok ()))).events.filter Event.isUpload
      = [.CreateAlbum "Trip" ["photos/2019/b.jpg", "photos/2019/c.jpg", "photos/a.jpg"]] ∧
    (main (demoWorld ["photos"] "" (.ok ()))).events.filter Event.isUpload
      = [.AddToLibrary ["photos/2019/b.jpg", "photos/2019/c.jpg", "photos/a.jpg"]] :=
  ⟨(main_upload_call (demoWorld ["photos"] "Trip" (.ok ())) ["photos"]
      ["photos/2019/b.jpg", "photos/2019/c.jpg", "photos/a.jpg"] () () rfl (by decide)
      (by decide) (by decide) rfl rfl).1 (by decide),
    (main_upload_call (demoWorld ["photos"] "" (.ok ())) ["photos"]
      ["photos/2019/b.jpg", "photos/2019/c.jpg", "photos/a.jpg"] () () rfl (by decide)
      (by decide) (by decide) rfl rfl).2 rfl⟩

/-- C6: `main` exits with code zero exactly when every stage succeeds: the command
line is parsed, at least one argument is given, `findFiles` returns a nil error
and a non-empty list, `oauth.NewClient` and `photos.New` return no error, and
the selected upload call returns no error; in every other case the exit code
is 1. -/
theorem main_exit_zero_iff {Client Service Album : Type} (w : World Client Service Album) :
    ((main w).exitCode = 0 ↔
      ∃ args files client service,
        w.Parse = (args, none) ∧ args ≠ [] ∧
        findFiles w.lstat args = (files, none) ∧ files ≠ [] ∧
        w.NewClient w.opts.OAuthMethod w.opts.ClientID w.opts.ClientSecret = .ok client ∧
        w.New client = .ok service ∧
        (if w.opts.NewAlbum ≠ "" then (w.CreateAlbum service w.opts.NewAlbum files).2 = none
          else w.AddToLibrary service files = none)) ∧
    ((main w).exitCode = 0 ∨ (main w).exitCode = 1) := by
  rcases hP : w.Parse with ⟨args, _ | perr⟩
  swap
  · simp [main, hP, fatal]
  by_cases hargs : args = []
  · simp [main, hP, hargs]
  have h1 : ¬ args.length = 0 := by simpa using hargs
  rcases hF : findFiles w.lstat args with ⟨files, _ | ferr⟩
  swap
  · simp [main, hP, hF, h1, fatal]
  by_cases hfiles : files = []
  · subst hfiles
    simp [main, hP, hF, h1, fatal]
  have h2 : ¬ files.length = 0 := by simpa using hfiles
  rcases hA : w.NewClient w.opts.OAuthMethod w.opts.ClientID w.opts.ClientSecret with aerr | client
  · simp [main, hP, hF, h1, h2, hA, fatal]
  rcases hN : w.New client with nerr | service
  · simp [main, hP, hF, h1, h2, hA, hN, fatal]
  by_cases htitle : w.opts.NewAlbum = ""
  · rcases hL : w.AddToLibrary service files with _ | lerr
    · simp [main, hP, hF, h1, h2, hA, hN, htitle, hL, hargs, hfiles]
    · simp [main, hP, hF, h1, h2, hA, hN, htitle, hL, hargs, hfiles, fatal]
  · rcases hC : w.CreateAlbum service w.opts.NewAlbum files with ⟨album, _ | cerr⟩
    · simp [main, hP, hF, h1, h2, hA, hN, htitle, hC, hargs, hfiles]
    · simp [main, hP, hF, h1, h2, hA, hN, htitle, hC, hargs, hfiles, fatal]

/-! ## Per-item failures of the batch commit -/

theorem length_uploadFiles (rem : Remote) : ∀ (files tokens : List String),
    uploadFiles rem files = .ok tokens → tokens.length = files.length
  | [], tokens, h => by
    simp only [uploadFiles, Except.ok.injEq] at h
    subst h
    rfl
  | file :: rest, tokens, h => by
    simp only [uploadFiles] at h
    rcases hu : rem.upload file with uerr | token
    · simp [hu] at h
    rcases hr : uploadFiles rem rest with rerr | tokens1
    · simp [hu, hr] at h
    have ih := length_uploadFiles rem rest tokens1 hr
    simp only [hu, hr, Except.ok.injEq] at h
    subst h
    simp [ih]

theorem countP_zipWith_success (p : Bool → Bool) : ∀ (tokens : List String) (statuses : List Bool),
    statuses.length = tokens.length →
    (List.zipWith ItemResult.mk tokens statuses).countP (fun x => p x.success)
      = statuses.countP p
  | [], [], _ => by simp
  | [], _ :: _, h => by simp at h
  | _ :: _, [], h => by simp at h
  | token :: tokens, status :: statuses, h => by
    have ih := countP_zipWith_success p tokens statuses (by simpa using h)
    simp [List.countP_cons, ih]

/-- C7, as the code has it: when the album is created, every file is uploaded and
the batch commit reports exactly one failing item, the result set of
`CreateAlbum` has one entry per file, exactly one of them a failure and all the
others successes, and its error is nil; `main` then exits with code zero, which
is also its exit code when every item of the batch succeeds: `main` discards
the result set and looks at the error only. -/
theorem main_item_failure_exit_zero {Client Service Album : Type}
    (w : World Client Service Album) (rem remOk : Remote)
    (args F : List String) (client : Client) (service : Service)
    (albumID albumOk : String) (tokens tokensOk : List String) (statuses statusesOk : List Bool)
    (hparse : w.Parse = (args, none)) (hargs : args ≠ [])
    (hfind : findFiles w.lstat args = (F, none)) (hF : F ≠ [])
    (hauth : w.NewClient w.opts.OAuthMethod w.opts.ClientID w.opts.ClientSecret = .ok client)
    (hnew : w.New client = .ok service) (htitle : w.opts.NewAlbum ≠ "")
    (halbum : rem.createAlbum w.opts.NewAlbum = .ok albumID)
    (hupload : uploadFiles rem F = .ok tokens)
    (hbatch : rem.batchCreate (some albumID) tokens = .ok statuses)
    (hlen : statuses.length = tokens.length)
    (hone : statuses.countP (fun ok => !ok) = 1)
    (halbumOk : remOk.createAlbum w.opts.NewAlbum = .ok albumOk)
    (huploadOk : uploadFiles remOk F = .ok tokensOk)
    (hbatchOk : remOk.batchCreate (some albumOk) tokensOk = .ok statusesOk)
    (hall : ∀ ok ∈ statusesOk, ok = true) :
    (PhotosCreateAlbum rem w.opts.NewAlbum F).2 = none ∧
    (PhotosCreateAlbum rem w.opts.NewAlbum F).1.length = F.length ∧
    (PhotosCreateAlbum rem w.opts.NewAlbum F).1.countP (fun x => !x.success) = 1 ∧
    (PhotosCreateAlbum rem w.opts.NewAlbum F).1.countP (fun x => x.success) = F.length - 1 ∧
    (∀ x ∈ (PhotosCreateAlbum remOk w.opts.NewAlbum F).1, x.success = true) ∧
    (main (withPhotos w rem)).exitCode = 0 ∧
    (main (withPhotos w remOk)).exitCode = (main (withPhotos w rem)).exitCode := by
  have hres : PhotosCreateAlbum rem w.opts.NewAlbum F
      = (List.zipWith ItemResult.mk tokens statuses, none) := by
    simp [PhotosCreateAlbum, halbum, hupload, hbatch]
  have hresOk : PhotosCreateAlbum remOk w.opts.NewAlbum F
      = (List.zipWith ItemResult.mk tokensOk statusesOk, none) := by
    simp [PhotosCreateAlbum, halbumOk, huploadOk, hbatchOk]
  have htok := length_uploadFiles rem F tokens hupload
  have hlenres : (List.zipWith ItemResult.mk tokens statuses).length = F.length := by
    simp [List.length_zipWith, hlen, htok]
  have hfail : (List.zipWith ItemResult.mk tokens statuses).countP (fun x => !x.success) = 1 := by
    rw [countP_zipWith_success (fun ok => !ok) tokens statuses hlen, hone]
  have hsucc : (List.zipWith ItemResult.mk tokens statuses).countP (fun x => x.success)
      = F.length - 1 := by
    have hsum := List.length_eq_countP_add_countP (fun x : ItemResult => x.success)
      (List.zipWith ItemResult.mk tokens statuses)
    have heq : (List.zipWith ItemResult.mk tokens statuses).countP (fun x => ¬ x.success = true)
        = (List.zipWith ItemResult.mk tokens statuses).countP (fun x => !x.success) := by
      congr 1
      funext x
      cases x.success <;> simp
    rw [heq, hfail, hlenres] at hsum
    omega
  have hexit : ∀ r : Remote, (PhotosCreateAlbum r w.opts.NewAlbum F).2 = none →
      (main (withPhotos w r)).exitCode = 0 := by
    intro r hr
    have hm := main_of_files (withPhotos w r) args F hparse hargs hfind hF
    have hc : (withPhotos w r).CreateAlbum service w.opts.NewAlbum F
        = ((PhotosCreateAlbum r w.opts.NewAlbum F).1, none) := by
      rw [← hr]
      rfl
    have ha : (withPhotos w r).NewClient w.opts.OAuthMethod w.opts.ClientID w.opts.ClientSecret
        = .ok client := hauth
    have hn : (withPhotos w r).New client = .ok service := hnew
    have ho : (withPhotos w r).opts = w.opts := rfl
    rw [hm]
    simp only [ho, ha, hn, htitle, ne_eq, not_false_eq_true, if_true, hc]
  have h0 := hexit rem (by rw [hres])
  have h0ok := hexit remOk (by rw [hresOk])
  refine ⟨by rw [hres], by rw [hres]; exact hlenres, by rw [hres]; exact hfail,
    by rw [hres]; exact hsucc, ?_, h0, by rw [h0, h0ok]⟩
  intro x hx
  rw [hresOk] at hx
  simp only at hx
  obtain ⟨i, hi, hget⟩ := List.getElem_of_mem hx
  rw [List.getElem_zipWith] at hget
  rw [← hget]
  exact hall _ (List.getElem_mem _)

/-- C7, on the sample world: the item of `photos/a.jpg` fails in the batch. -/
theorem main_item_failure_exit_zero_witness :
    (PhotosCreateAlbum (demoRemote "photos/a.jpg") "Trip" demoFiles).2 = none ∧
    (PhotosCreateAlbum (demoRemote "photos/a.jpg") "Trip" demoFiles).1.length
      = demoFiles.length ∧
    (PhotosCreateAlbum (demoRemote "photos/a.jpg") "Trip" demoFiles).1.countP
      (fun x => !x.success) = 1 ∧
    (PhotosCreateAlbum (demoRemote "photos/a.jpg") "Trip" demoFiles).1.countP
      (fun x => x.success) = demoFiles.length - 1 ∧
    (∀ x ∈ (PhotosCreateAlbum (demoRemote "") "Trip" demoFiles).1, x.success = true) ∧
    (main (withPhotos (demoWorld ["photos"] "Trip" (.ok ()))
      (demoRemote "photos/a.jpg"))).exitCode = 0 ∧
    (main (withPhotos (demoWorld ["photos"] "Trip" (.ok ())) (demoRemote ""))).exitCode
      = (main (withPhotos (demoWorld ["photos"] "Trip" (.ok ()))
          (demoRemote "photos/a.jpg"))).exitCode :=
  main_item_failure_exit_zero (demoWorld ["photos"] "Trip" (.ok ()))
    (demoRemote "photos/a.jpg") (demoRemote "") ["photos"] demoFiles () ()
    "album:Trip" "album:Trip"
    ["token:photos/2019/b.jpg", "token:photos/2019/c.jpg", "token:photos/a.jpg"]
    ["token:photos/2019/b.jpg", "token:photos/2019/c.jpg", "token:photos/a.jpg"]
    [true, true, false] [true, true, true]
    rfl (by decide) (by decide) (by decide) rfl rfl (by decide) rfl rfl rfl
    (by decide) (by decide) rfl rfl rfl (by decide)

/-- C7 as stated fails: on the sample world with the album title `Trip`, the album
is created and the item of `photos/a.jpg` fails in the batch while the two other
items succeed, yet the exit code of `main` does not differ from its exit code
when every item succeeds. -/
theorem main_item_failure_exit_code_counterexample :
    PhotosCreateAlbum (demoRemote "photos/a.jpg") "Trip" demoFiles
      = ([⟨"token:photos/2019/b.jpg", true⟩, ⟨"token:photos/2019/c.jpg", true⟩,
          ⟨"token:photos/a.jpg", false⟩], none) ∧
    PhotosCreateAlbum (demoRemote "") "Trip" demoFiles
      = ([⟨"token:photos/2019/b.jpg", true⟩, ⟨"token:photos/2019/c.jpg", true⟩,
          ⟨"token:photos/a.jpg", true⟩], none) ∧
    (main (withPhotos (demoWorld ["photos"] "Trip" (.ok ()))
      (demoRemote "photos/a.jpg"))).events.filter Event.isUpload
      = [.CreateAlbum "Trip" demoFiles] ∧
    ¬ ((main (withPhotos (demoWorld ["photos"] "Trip" (.ok ()))
          (demoRemote "photos/a.jpg"))).exitCode
        ≠ (main (withPhotos (demoWorld ["photos"] "Trip" (.ok ())) (demoRemote ""))).exitCode) := by
  decide

end Gpup
